import Mathlib

/-!
Shallow embedding of the build-command core of the terraform NextJS provider
(`internal/provider/nextjs_build_command.go`).

Strings are modelled as lists of characters (`Str`), matching Go's byte-wise
string operations on the ASCII inputs the provider handles.
-/

namespace NextJS

abbrev Str := List Char

/-- The single-quote character, used by the tokenizer as a quote delimiter. -/
def sq : Char := Char.ofNat 39

/-- The double-quote character, used by the tokenizer as a quote delimiter. -/
def dq : Char := Char.ofNat 34

/-- A character opens a quoted span when it is a single or double quote.
Embeds the test
`strings.HasPrefix(i, "'") || strings.HasPrefix(i, "\"")` applied to the
first character of a word. -/
def isQuoteChar (c : Char) : Bool := c = sq || c = dq

/-- Embeds Go's `strings.Split(s, " ")`: split on every single space,
keeping empty words; the empty string yields one empty word. -/
def splitSpace : Str → List Str
  | [] => [[]]
  | c :: cs =>
    if c = ' ' then [] :: splitSpace cs
    else
      match splitSpace cs with
      | [] => [[c]]
      | w :: ws => (c :: w) :: ws

/-- Embeds Go's `strings.Join(ws, " ")`. -/
def joinSpace : List Str → Str
  | [] => []
  | [w] => w
  | w :: ws => w ++ ' ' :: joinSpace ws

/-- The loop state of `safeSplit`: the emitted tokens (`result`), the
pending closing quote character (`inquote`, `none` when outside a quoted
span, Go models it as the empty or one-character string), and the
accumulation buffer (`block`). -/
structure SplitState where
  result : List Str
  inquote : Option Char
  block : Str
deriving DecidableEq, Repr

/-- One iteration of the `safeSplit` word loop, translated branch by branch
from the Go source:
outside a quote, a word starting with a quote character enters quote mode
with `block = strings.TrimPrefix(i, inquote) + " "`, any other word is
appended to `result`; inside a quote, a word not ending in the delimiter is
appended to `block` with a trailing space, and a word ending in the
delimiter is stripped of it, appended, and the whole block is emitted. -/
def splitStep (st : SplitState) (w : Str) : SplitState :=
  match st.inquote with
  | none =>
    match w with
    | c :: rest =>
      if isQuoteChar c then
        { st with inquote := some c, block := rest ++ [' '] }
      else
        { st with result := st.result ++ [w] }
    | [] => { st with result := st.result ++ [[]] }
  | some q =>
    if w.getLast? = some q then
      { result := st.result ++ [st.block ++ w.dropLast], inquote := none, block := [] }
    else
      { st with block := st.block ++ w ++ [' '] }

/-- The initial loop state of `safeSplit`: no tokens, outside any quote,
empty buffer. -/
def initState : SplitState := ⟨[], none, []⟩

/-- Embeds `safeSplit`: split the command string on spaces, run the quote
loop over the words, and return the emitted tokens.  A buffer still pending
when the words run out (an unterminated quote) is discarded, as in the
source. -/
def safeSplit (s : Str) : List Str :=
  (List.foldl splitStep initState (splitSpace s)).result

/-- A terraform string attribute value: null, unknown, or a concrete string
(`types.String`). -/
inductive TFString where
  | null
  | unknown
  | value (s : Str)
deriving DecidableEq

/-- One discovered build artifact as stored in the resource's `data`
attribute (the object with `path`, `sha256` and `function_name` built in
`Create`). -/
structure BuildArtifact where
  path : Str
  sha256 : Str
  function_name : Str
deriving DecidableEq, Repr

/-- One artifact entry of the parsed `serverless-state.json` document.  Only
the fields the spec's artifact projection mentions are modelled. -/
structure StateArtifact where
  path : Str
  sha : Str
  fn : Str
deriving DecidableEq

/-- The artifact entries of the parsed state document. -/
abbrev StateDoc := List StateArtifact

/-- Embeds `BuildCommandModel`: the resource data model with its
`source_path`, `commands` and computed `data` attributes. -/
structure BuildCommandModel where
  sourcePath : TFString
  commands : List Str
  data : List BuildArtifact
deriving DecidableEq

/-- Outcome of an `os.Stat` call on a path: the path exists, it does not
exist (`os.IsNotExist`), or stat fails with some other error. -/
inductive StatResult where
  | found
  | notFound
  | accessErr (msg : Str)
deriving DecidableEq

/-- The outside world a `Create` invocation interacts with: `stat` backs the
`exists` helper, `run` is the `command.Output()` call for the i-th executed
command (given the tokenized arguments), `readFile` is `os.ReadFile`, and
`parseJson` is `json.Unmarshal` of the state file, abstracted to yield the
artifact entries of the document when it parses. -/
structure Env where
  stat : Str → StatResult
  run : Nat → List Str → Except Str Str
  readFile : Str → Str
  parseJson : Str → Except Str StateDoc

/-- Embeds the `exists` helper: `(true, nil)` when stat succeeds,
`(false, nil)` when the path does not exist, `(false, err)` otherwise. -/
def existsCheck (env : Env) (p : Str) : Bool × Option Str :=
  match env.stat p with
  | StatResult.found => (true, none)
  | StatResult.notFound => (false, none)
  | StatResult.accessErr m => (false, some m)

/-- A diagnostic added through `resp.Diagnostics.AddError(title, detail)`. -/
inductive Diag where
  | err (title : Str) (detail : Str)
deriving DecidableEq

/-- The `AddError` raised when `source_path` is null or unknown. -/
def sourcePathNeededDiag : Diag :=
  Diag.err ("Source Path needed".toList)
    ("Source Path needed in order to create Functions".toList)

/-- The `AddError` raised when the `exists` check on a path fails; the
source uses this one diagnostic both for the source path (step 1) and for
the state file found missing after the commands ran. -/
def pathNotValidDiag : Diag :=
  Diag.err ("Source Path is not Valid".toList)
    ("The Source Path either does not exist, or Terraform cannot access the Path.".toList)

/-- The `AddError` raised when a command fails: the title carries
`command.String()` (executable followed by the tokenized arguments, joined
by spaces) and the detail carries `err.Error()`. -/
def commandFailedDiag (exe : Str) (args : List Str) (errMsg : Str) : Diag :=
  Diag.err ("Could not execute Command: ".toList ++ joinSpace (exe :: args)) errMsg

/-- The `AddError` raised when `json.Unmarshal` of the state file fails. -/
def parseErrorDiag (file : Str) (errMsg : Str) : Diag :=
  Diag.err ("Unable to parse NextJS State".toList)
    ("The File: ".toList ++ file ++ " could not be read and the following error was produced: ".toList
      ++ errMsg ++ ".".toList)

/-- Embeds `path.Join(sourcePath, ".serverless", "serverless-state.json")`
(concatenation with separators; no path cleaning is modelled). -/
def stateFilePath (sp : Str) : Str := sp ++ "/.serverless/serverless-state.json".toList

/-- The command execution loop of `Create`: tokenize each command, run it,
and stop at the first failure.  Returns the trace of invoked argument
vectors (in invocation order) and the diagnostic of the failing command, if
any.  `idx` is the loop index of the first command of the list. -/
def runCommands (env : Env) (exe : Str) (idx : Nat) :
    List Str → List (List Str) × Option Diag
  | [] => ([], none)
  | c :: rest =>
    let args := safeSplit c
    match env.run idx args with
    | Except.error e => ([args], some (commandFailedDiag exe args e))
    | Except.ok _ =>
      let p := runCommands env exe (idx + 1) rest
      (args :: p.1, p.2)

/-- The fixed artifact `Create` builds regardless of the parsed state
document (the `value1`/`value2`/`value3` object of the source). -/
def placeholderArtifact : BuildArtifact :=
  ⟨"value1".toList, "value2".toList, "value3".toList⟩

/-- Everything observable about one `Create` invocation before the state is
saved: the trace of invoked commands, the error diagnostic of the first
failing step (if any), and the artifact list computed on success. -/
structure ExecOutcome where
  trace : List (List Str)
  diag : Option Diag
  result : Option (List BuildArtifact)
deriving DecidableEq

/-- Embeds the body of `BuildCommand.Create` up to (but not including)
`resp.State.Set`: check `source_path` for null/unknown, check it exists, run
the commands in order stopping at the first failure, check the state file
exists, read and parse it, and build the artifact list.  The fallible
terraform value conversions (`ElementsAs`, `ObjectValue`, `ListValueFrom`)
cannot fail on this well-typed model and are not modelled.  As in the
source, the read error of `os.ReadFile` is ignored and the parsed document
is ignored when building the artifacts. -/
def createExec (env : Env) (exe : Str) (plan : BuildCommandModel) : ExecOutcome :=
  match plan.sourcePath with
  | TFString.null => ⟨[], some sourcePathNeededDiag, none⟩
  | TFString.unknown => ⟨[], some sourcePathNeededDiag, none⟩
  | TFString.value sp =>
    let ex := existsCheck env sp
    if !ex.1 || ex.2.isSome then ⟨[], some pathNotValidDiag, none⟩
    else
      let p := runCommands env exe 0 plan.commands
      match p.2 with
      | some d => ⟨p.1, some d, none⟩
      | none =>
        let exSt := existsCheck env (stateFilePath sp)
        if !exSt.1 || exSt.2.isSome then ⟨p.1, some pathNotValidDiag, none⟩
        else
          match env.parseJson (env.readFile (stateFilePath sp)) with
          | Except.error e => ⟨p.1, some (parseErrorDiag (stateFilePath sp) e), none⟩
          | Except.ok _ => ⟨p.1, none, some [placeholderArtifact]⟩

/-- Embeds `BuildCommand.Create` as seen by the host's state store: on
success the plan with its `data` attribute filled is saved
(`resp.State.Set`), on any early return nothing is saved and the store
keeps its prior content.  Returns the diagnostic (if any) and the store's
content after the call. -/
def create (env : Env) (exe : Str) (plan : BuildCommandModel)
    (store : Option BuildCommandModel) : Option Diag × Option BuildCommandModel :=
  let o := createExec env exe plan
  match o.result with
  | some arts => (o.diag, some { plan with data := arts })
  | none => (o.diag, store)

/-- Embeds `BuildCommand.Update` as seen by the host's state store: the
body only reads the plan into the model and saves that model back with
`resp.State.Set`; no command is executed.  Returns the trace of invoked
commands (always empty) and the store's content after the call. -/
def update (_env : Env) (_exe : Str) (plan : BuildCommandModel)
    (_store : Option BuildCommandModel) : List (List Str) × Option BuildCommandModel :=
  ([], some plan)

/-- Whether a `command.Output()` call succeeded. -/
def runOk (r : Except Str Str) : Bool :=
  match r with
  | Except.ok _ => true
  | Except.error _ => false

/-- Whether a word would open a quoted span in the tokenizer loop. -/
def startsWithQuote : Str → Bool
  | [] => false
  | c :: _ => isQuoteChar c

/- Concrete inputs used to exercise the model. -/

def npmExe : Str := "npm".toList

def appPath : Str := "app".toList

def cmdPlain : Str := "install --cache .npm --prefer-offline".toList

def cmdSingleQuoted : Str := "run ".toList ++ sq :: "hello world".toList ++ sq :: " --flag".toList

def cmdDoubleQuoted : Str := "run ".toList ++ dq :: "a b".toList ++ dq :: " c".toList

def cmdUnterminated : Str := "run ".toList ++ sq :: "hello world".toList

def cmdFullyQuoted : Str := "run ".toList ++ sq :: 'x' :: [sq]

/-- A world where every path exists, every command succeeds, and the state
file parses to the single artifact entry (a.zip, abc, f1) of the spec's
example. -/
def envArtifacts : Env :=
  { stat := fun _ => StatResult.found
  , run := fun _ _ => Except.ok ("ok".toList)
  , readFile := fun _ => "state".toList
  , parseJson := fun _ => Except.ok [⟨"a.zip".toList, "abc".toList, "f1".toList⟩] }

/-- A world where no path exists. -/
def envNoPath : Env :=
  { stat := fun _ => StatResult.notFound
  , run := fun _ _ => Except.ok []
  , readFile := fun _ => []
  , parseJson := fun _ => Except.ok [] }

/-- A world where every path exists and command 0 succeeds but every later
command fails. -/
def envSecondFails : Env :=
  { stat := fun _ => StatResult.found
  , run := fun i _ => if i = 0 then Except.ok ("out".toList) else Except.error ("boom".toList)
  , readFile := fun _ => []
  , parseJson := fun _ => Except.ok [] }

/-- A world where the source directory exists and every command succeeds,
but no other path (in particular the state file) exists. -/
def envNoStateFile : Env :=
  { stat := fun p => if p = appPath then StatResult.found else StatResult.notFound
  , run := fun _ _ => Except.ok []
  , readFile := fun _ => []
  , parseJson := fun _ => Except.ok [] }

/-- A plan with one build command. -/
def planBuild : BuildCommandModel :=
  { sourcePath := TFString.value appPath
  , commands := ["run-script build".toList]
  , data := [] }

/-- A plan with three commands. -/
def planThree : BuildCommandModel :=
  { sourcePath := TFString.value appPath
  , commands := ["a b".toList, "c".toList, "d".toList]
  , data := [] }

/-- A previously stored resource model. -/
def storedModel : BuildCommandModel :=
  { sourcePath := TFString.value appPath
  , commands := []
  , data := [placeholderArtifact] }

/-! ## Helper lemmas -/

/-- When every command of the list succeeds, the loop invokes each one in
order and reports no diagnostic. -/
theorem runCommands_all_ok (env : Env) (exe : Str) :
    ∀ (cmds : List Str) (idx : Nat),
      (∀ i, (h : i < cmds.length) → runOk (env.run (idx + i) (safeSplit (cmds.get ⟨i, h⟩))) = true) →
      runCommands env exe idx cmds = (cmds.map safeSplit, none) := by
  intro cmds
  induction cmds with
  | nil => intro idx _; rfl
  | cons c rest ih =>
    intro idx h
    have h0 : runOk (env.run idx (safeSplit c)) = true := by
      have := h 0 (by simp)
      simpa using this
    have hrest : runCommands env exe (idx + 1) rest = (rest.map safeSplit, none) := by
      apply ih
      intro i hi
      have := h (i + 1) (by simpa using Nat.succ_lt_succ hi)
      simpa [Nat.add_assoc, Nat.add_comm 1 i] using this
    unfold runCommands
    cases hr : env.run idx (safeSplit c) with
    | error e => rw [hr] at h0; simp [runOk] at h0
    | ok out => simp [hrest, hr]

/-- When command `k` fails and every earlier command succeeds, the loop
invokes exactly the first `k + 1` commands in order and stops with the
failing command's diagnostic. -/
theorem runCommands_halt (env : Env) (exe : Str) :
    ∀ (cmds : List Str) (idx k : Nat) (hk : k < cmds.length) (e : Str),
      env.run (idx + k) (safeSplit (cmds.get ⟨k, hk⟩)) = Except.error e →
      (∀ i, (h : i < k) →
        runOk (env.run (idx + i) (safeSplit (cmds.get ⟨i, Nat.lt_trans h hk⟩))) = true) →
      runCommands env exe idx cmds =
        ((cmds.take (k + 1)).map safeSplit,
         some (commandFailedDiag exe (safeSplit (cmds.get ⟨k, hk⟩)) e)) := by
  intro cmds
  induction cmds with
  | nil => intro idx k hk; exact absurd hk (by simp)
  | cons c rest ih =>
    intro idx k hk e hfail hsucc
    cases k with
    | zero =>
      have hfail0 : env.run idx (safeSplit c) = Except.error e := by simpa using hfail
      unfold runCommands
      simp [hfail0]
    | succ k =>
      have h0 : runOk (env.run idx (safeSplit c)) = true := by
        have := hsucc 0 (Nat.succ_pos k)
        simpa using this
      have hk' : k < rest.length := Nat.lt_of_succ_lt_succ hk
      have hfail' : env.run (idx + 1 + k) (safeSplit (rest.get ⟨k, hk'⟩)) = Except.error e := by
        have harith : idx + 1 + k = idx + (k + 1) := by omega
        rw [harith]
        simpa using hfail
      have hsucc' : ∀ i, (h : i < k) →
          runOk (env.run (idx + 1 + i) (safeSplit (rest.get ⟨i, Nat.lt_trans h hk'⟩))) = true := by
        intro i hi
        have harith : idx + 1 + i = idx + (i + 1) := by omega
        rw [harith]
        have := hsucc (i + 1) (Nat.succ_lt_succ hi)
        simpa using this
      have hrest := ih (idx + 1) k hk' e hfail' hsucc'
      unfold runCommands
      cases hr : env.run idx (safeSplit c) with
      | error e0 => rw [hr] at h0; simp [runOk] at h0
      | ok out => simp [hrest, hr]

/-- Processing words from a state inside a quoted span, where no word ends
with the closing quote, leaves the emitted tokens untouched and stays in
quote mode. -/
theorem foldl_splitStep_in_quote (q : Char) :
    ∀ (ws : List Str) (res : List Str) (blk : Str),
      (∀ u ∈ ws, u.getLast? ≠ some q) →
      (List.foldl splitStep ⟨res, some q, blk⟩ ws).result = res ∧
      (List.foldl splitStep ⟨res, some q, blk⟩ ws).inquote = some q := by
  intro ws
  induction ws with
  | nil => intro res blk _; exact ⟨rfl, rfl⟩
  | cons u ws ih =>
    intro res blk h
    have hu : ¬ u.getLast? = some q := h u (List.mem_cons_self u ws)
    have hstep : splitStep ⟨res, some q, blk⟩ u = ⟨res, some q, blk ++ u ++ [' ']⟩ := by
      simp [splitStep, hu]
    rw [List.foldl_cons, hstep]
    exact ih res (blk ++ u ++ [' ']) (fun v hv => h v (List.mem_cons_of_mem u hv))

/-- Processing words that never open a quote emits each word unchanged, in
order. -/
theorem foldl_splitStep_no_quote :
    ∀ (ws : List Str) (res : List Str),
      (∀ w ∈ ws, startsWithQuote w = false) →
      List.foldl splitStep ⟨res, none, []⟩ ws = ⟨res ++ ws, none, []⟩ := by
  intro ws
  induction ws with
  | nil => intro res _; simp
  | cons w ws ih =>
    intro res h
    have hw : startsWithQuote w = false := h w (List.mem_cons_self w ws)
    have hstep : splitStep ⟨res, none, []⟩ w = ⟨res ++ [w], none, []⟩ := by
      cases w with
      | nil => simp [splitStep]
      | cons c cs =>
        have hc : isQuoteChar c = false := by simpa [startsWithQuote] using hw
        simp [splitStep, hc]
    rw [List.foldl_cons, hstep, ih (res ++ [w]) (fun v hv => h v (List.mem_cons_of_mem w hv))]
    simp

/-- A command string none of whose words opens a quote tokenizes to exactly
its space-split words. -/
theorem safeSplit_no_quote (s : Str)
    (h : ∀ w ∈ splitSpace s, startsWithQuote w = false) :
    safeSplit s = splitSpace s := by
  unfold safeSplit initState
  rw [foldl_splitStep_no_quote (splitSpace s) [] h]
  simp

/-- Splitting on spaces never yields the empty word list. -/
theorem splitSpace_ne_nil (s : Str) : splitSpace s ≠ [] := by
  cases s with
  | nil => simp [splitSpace]
  | cons c cs =>
    unfold splitSpace
    split
    · simp
    · split <;> simp

/-- Words produced by splitting on spaces contain no space. -/
theorem splitSpace_no_space : ∀ (s : Str), ∀ w ∈ splitSpace s, ' ' ∉ w := by
  intro s
  induction s with
  | nil =>
    intro w hw
    simp [splitSpace] at hw
    simp [hw]
  | cons c cs ih =>
    intro w hw
    by_cases hc : c = ' '
    · rw [show splitSpace (c :: cs) = [] :: splitSpace cs by simp [splitSpace, hc]] at hw
      cases hw with
      | head => simp
      | tail _ hw => exact ih w hw
    · cases hsp : splitSpace cs with
      | nil => exact absurd hsp (splitSpace_ne_nil cs)
      | cons w0 ws =>
        rw [show splitSpace (c :: cs) = (c :: w0) :: ws by simp [splitSpace, hc, hsp]] at hw
        cases hw with
        | head =>
          intro hmem
          cases hmem with
          | head => exact hc rfl
          | tail _ hmem => exact ih w0 (hsp ▸ List.mem_cons_self w0 ws) hmem
        | tail _ hw => exact ih w (hsp ▸ List.mem_cons_of_mem w0 hw)

/-- Splitting a spaceless word on spaces yields that single word. -/
theorem splitSpace_single (w : Str) (h : ' ' ∉ w) : splitSpace w = [w] := by
  induction w with
  | nil => rfl
  | cons c cs ih =>
    have hc : ¬ c = ' ' := by
      intro hh
      exact h (by rw [hh]; exact List.mem_cons_self _ _)
    have ih' := ih (fun hm => h (List.mem_cons_of_mem _ hm))
    simp [splitSpace, hc, ih']

/-- Splitting a spaceless word, a space, and a tail splits off the word. -/
theorem splitSpace_append (w : Str) (t : Str) (h : ' ' ∉ w) :
    splitSpace (w ++ ' ' :: t) = w :: splitSpace t := by
  induction w with
  | nil => simp [splitSpace]
  | cons c cs ih =>
    have hc : ¬ c = ' ' := by
      intro hh
      exact h (by rw [hh]; exact List.mem_cons_self _ _)
    have ih' := ih (fun hm => h (List.mem_cons_of_mem _ hm))
    simp [splitSpace, hc, ih']

/-- Joining spaceless words with single spaces and splitting again on
spaces restores the word list. -/
theorem joinSpace_roundtrip :
    ∀ (ws : List Str), ws ≠ [] → (∀ w ∈ ws, ' ' ∉ w) →
      splitSpace (joinSpace ws) = ws := by
  intro ws
  induction ws with
  | nil => intro hne _; exact absurd rfl hne
  | cons w ws ih =>
    intro _ h
    cases ws with
    | nil =>
      rw [show joinSpace [w] = w from rfl]
      exact splitSpace_single w (h w (List.mem_cons_self _ _))
    | cons w2 rest =>
      rw [show joinSpace (w :: w2 :: rest) = w ++ ' ' :: joinSpace (w2 :: rest) from rfl]
      rw [splitSpace_append w _ (h w (List.mem_cons_self _ _))]
      rw [ih (by simp) (fun v hv => h v (List.mem_cons_of_mem w hv))]

/-- A `Create` invocation that raises a diagnostic builds no artifact
list: every `AddError` in the body is immediately followed by a return. -/
theorem createExec_diag_or_result (env : Env) (exe : Str) (plan : BuildCommandModel) :
    (createExec env exe plan).diag = none ∨ (createExec env exe plan).result = none := by
  obtain ⟨sp0, cmds0, d0⟩ := plan
  cases sp0 with
  | null => simp [createExec]
  | unknown => simp [createExec]
  | value sp =>
    unfold createExec
    dsimp only
    split
    · simp
    · split
      · simp
      · split
        · simp
        · split <;> simp

/-! ## Claim theorems -/

/-- Claim C1: the claim says `Execute` projects the returned artifact
fields from the parsed state-file content; the code instead always returns
the one fixed placeholder artifact (value1, value2, value3).  At the
claim's own input — valid source directory, successful commands, state file
parsing to the single entry (a.zip, abc, f1) — the result is the
placeholder, which differs from the claimed artifact. -/
theorem claim1_placeholder_not_projected :
    (createExec envArtifacts npmExe planBuild).result = some [placeholderArtifact] ∧
    placeholderArtifact ≠ ⟨"a.zip".toList, "abc".toList, "f1".toList⟩ :=
  ⟨rfl, by decide⟩

/-- Claim C2: the claim says an update re-executes the full build pipeline;
the code's `Update` executes no command at all and stores the plan model
unchanged, for every input. -/
theorem claim2_update_executes_nothing (env : Env) (exe : Str)
    (plan : BuildCommandModel) (store : Option BuildCommandModel) :
    update env exe plan store = ([], some plan) := rfl

/-- Claim C3: when command `k` fails and commands `0..k-1` succeed,
`Create` invokes exactly the tokenized commands `0..k` in list order
(commands `k+1..` never run), raises the command-failed diagnostic carrying
the command text and the underlying error, and produces no artifacts. -/
theorem claim3_halts_at_first_failure (env : Env) (exe : Str) (cmds : List Str)
    (d : List BuildArtifact) (s : Str)
    (hstat : env.stat s = StatResult.found)
    (k : Nat) (hk : k < cmds.length) (e : Str)
    (hfail : env.run k (safeSplit (cmds.get ⟨k, hk⟩)) = Except.error e)
    (hsucc : ∀ i, (h : i < k) →
      runOk (env.run i (safeSplit (cmds.get ⟨i, Nat.lt_trans h hk⟩))) = true) :
    createExec env exe ⟨TFString.value s, cmds, d⟩ =
      ⟨(cmds.take (k + 1)).map safeSplit,
       some (commandFailedDiag exe (safeSplit (cmds.get ⟨k, hk⟩)) e), none⟩ := by
  have hrun := runCommands_halt env exe cmds 0 k hk e (by simpa using hfail)
    (by intro i hi; have := hsucc i hi; simpa using this)
  simp [createExec, existsCheck, hstat, hrun]

/-- Witness for C3: with the second of three commands failing, only the
first two tokenized commands are invoked and the third never runs. -/
theorem claim3_witness :
    createExec envSecondFails npmExe planThree =
      ⟨[["a".toList, "b".toList], ["c".toList]],
       some (commandFailedDiag npmExe ["c".toList] ("boom".toList)), none⟩ :=
  claim3_halts_at_first_failure envSecondFails npmExe planThree.commands [] appPath
    rfl 1 (by decide) ("boom".toList) rfl (by decide)

/-- Claim C4: for a non-empty source path that does not exist or is
inaccessible, `Create` raises the path-not-valid diagnostic and invokes
zero commands. -/
theorem claim4_missing_source_path (env : Env) (exe : Str) (cmds : List Str)
    (d : List BuildArtifact) (s : Str) (_hne : s ≠ [])
    (hstat : env.stat s ≠ StatResult.found) :
    createExec env exe ⟨TFString.value s, cmds, d⟩ = ⟨[], some pathNotValidDiag, none⟩ := by
  cases h : env.stat s with
  | found => exact absurd h hstat
  | notFound => simp [createExec, existsCheck, h]
  | accessErr m => simp [createExec, existsCheck, h]

/-- Witness for C4: a world with no paths yields the path diagnostic and an
empty command trace. -/
theorem claim4_witness :
    createExec envNoPath npmExe planBuild = ⟨[], some pathNotValidDiag, none⟩ :=
  claim4_missing_source_path envNoPath npmExe planBuild.commands [] appPath
    (by decide) (by decide)

/-- Claim C5, counterexample to "an error kind distinguishable from the
step-1 PathNotFound condition": the diagnostic raised when the state file
is missing after all commands succeed is identical to the diagnostic raised
when the source path itself is missing. -/
theorem claim5_counterexample :
    (createExec envNoStateFile npmExe planBuild).diag =
      (createExec envNoPath npmExe planBuild).diag ∧
    (createExec envNoStateFile npmExe planBuild).diag = some pathNotValidDiag :=
  ⟨rfl, rfl⟩

/-- Claim C5 as amended: when all commands succeed but the expected state
file under the source path does not exist or is inaccessible, `Create`
raises the same path-not-valid diagnostic as the step-1 source-path check
(the error is not distinguishable in kind) and produces no artifacts. -/
theorem claim5_state_file_missing_same_diag (env : Env) (exe : Str) (cmds : List Str)
    (d : List BuildArtifact) (s : Str)
    (hstat : env.stat s = StatResult.found)
    (hsucc : ∀ i, (h : i < cmds.length) →
      runOk (env.run i (safeSplit (cmds.get ⟨i, h⟩))) = true)
    (hstate : env.stat (stateFilePath s) ≠ StatResult.found) :
    createExec env exe ⟨TFString.value s, cmds, d⟩ =
      ⟨cmds.map safeSplit, some pathNotValidDiag, none⟩ := by
  have hrun := runCommands_all_ok env exe cmds 0 (by intro i hi; simpa using hsucc i hi)
  cases h : env.stat (stateFilePath s) with
  | found => exact absurd h hstate
  | notFound => simp [createExec, existsCheck, hstat, hrun, h]
  | accessErr m => simp [createExec, existsCheck, hstat, hrun, h]

/-- Witness for the amended C5: source path present, commands succeed,
state file absent. -/
theorem claim5_witness :
    createExec envNoStateFile npmExe planBuild =
      ⟨[["run-script".toList, "build".toList]], some pathNotValidDiag, none⟩ :=
  claim5_state_file_missing_same_diag envNoStateFile npmExe planBuild.commands []
    appPath rfl (by decide) (by decide)

/-- Claim C6: a failed `Create` persists nothing — whenever a diagnostic is
raised, the host's state store holds after the call exactly what it held
before. -/
theorem claim6_failure_preserves_store (env : Env) (exe : Str)
    (plan : BuildCommandModel) (store : Option BuildCommandModel) (d : Diag)
    (hd : (createExec env exe plan).diag = some d) :
    (create env exe plan store).2 = store := by
  have h := createExec_diag_or_result env exe plan
  rcases h with h | h
  · rw [hd] at h
    simp at h
  · simp [create, h]

/-- Witness for C6: a failing create leaves a previously stored model in
place. -/
theorem claim6_witness :
    (create envNoPath npmExe planBuild (some storedModel)).2 = some storedModel :=
  claim6_failure_preserves_store envNoPath npmExe planBuild (some storedModel)
    pathNotValidDiag rfl

/-- Claim C7: the tokenizer satisfies the spec's example vectors for the
plain, single-quoted, and double-quoted commands, with quoted spans
re-joined by single spaces and the delimiting quotes stripped. -/
theorem claim7_tokenizer_vectors :
    safeSplit cmdPlain =
      ["install".toList, "--cache".toList, ".npm".toList, "--prefer-offline".toList] ∧
    safeSplit cmdSingleQuoted = ["run".toList, "hello world".toList, "--flag".toList] ∧
    safeSplit cmdDoubleQuoted = ["run".toList, "a b".toList, "c".toList] :=
  ⟨by decide, by decide, by decide⟩

/-- Claim C8: when the input ends while the tokenizer is still inside a
quoted span (a word opens a quote with `q` and no later word ends with
`q`), the accumulated buffer is silently discarded: the output is exactly
the tokens completed before the quote opened, with no error raised. -/
theorem claim8_unterminated_quote_drops_buffer (s : Str) (pre : List Str) (q : Char)
    (rest : Str) (later : List Str) (res : List Str)
    (hsplit : splitSpace s = pre ++ (q :: rest) :: later)
    (hq : isQuoteChar q = true)
    (hpre : List.foldl splitStep initState pre = ⟨res, none, []⟩)
    (hlater : ∀ u ∈ later, u.getLast? ≠ some q) :
    safeSplit s = res := by
  unfold safeSplit
  rw [hsplit, List.foldl_append, hpre, List.foldl_cons]
  have hstep : splitStep ⟨res, none, []⟩ (q :: rest) = ⟨res, some q, rest ++ [' ']⟩ := by
    simp [splitStep, hq]
  rw [hstep]
  exact (foldl_splitStep_in_quote q later res (rest ++ [' ']) hlater).1

/-- Witness for C8: tokenizing a command with an unterminated quote keeps
the completed token and drops the quoted span. -/
theorem claim8_witness : safeSplit cmdUnterminated = ["run".toList] :=
  claim8_unterminated_quote_drops_buffer cmdUnterminated ["run".toList] sq
    ("hello".toList) ["world".toList] ["run".toList] (by decide) (by decide)
    (by decide) (by decide)

/-- Claim C9: for a command string none of whose words begins with a quote
character, re-joining the token list with single spaces and tokenizing
again reproduces the same token list. -/
theorem claim9_rejoin_retokenize (s : Str)
    (h : ∀ w ∈ splitSpace s, startsWithQuote w = false) :
    safeSplit (joinSpace (safeSplit s)) = safeSplit s := by
  have h1 : safeSplit s = splitSpace s := safeSplit_no_quote s h
  have h2 : splitSpace (joinSpace (splitSpace s)) = splitSpace s :=
    joinSpace_roundtrip (splitSpace s) (splitSpace_ne_nil s) (splitSpace_no_space s)
  have h3 : safeSplit (joinSpace (splitSpace s)) = splitSpace (joinSpace (splitSpace s)) := by
    apply safeSplit_no_quote
    rw [h2]
    exact h
  rw [h1, h3, h2]

/-- Witness for C9: the quote-free example command round-trips through
join and re-tokenization. -/
theorem claim9_witness :
    safeSplit (joinSpace (safeSplit cmdPlain)) = safeSplit cmdPlain :=
  claim9_rejoin_retokenize cmdPlain (by decide)

/-- Claim C10: a word that both begins and ends with the same quote
character makes the tokenizer enter quote mode without detecting the
closing quote in that same word (the fold is still in quote mode
afterwards), so if no later word ends with that quote character the quoted
word is silently dropped. -/
theorem claim10_fully_quoted_word_dropped (s : Str) (pre : List Str) (q : Char)
    (rest : Str) (later : List Str) (res : List Str)
    (hsplit : splitSpace s = pre ++ (q :: rest) :: later)
    (hq : isQuoteChar q = true)
    (_hend : (q :: rest).getLast? = some q)
    (hpre : List.foldl splitStep initState pre = ⟨res, none, []⟩)
    (hlater : ∀ u ∈ later, u.getLast? ≠ some q) :
    safeSplit s = res ∧
    (List.foldl splitStep initState (splitSpace s)).inquote = some q := by
  have hstep : splitStep ⟨res, none, []⟩ (q :: rest) = ⟨res, some q, rest ++ [' ']⟩ := by
    simp [splitStep, hq]
  constructor
  · unfold safeSplit
    rw [hsplit, List.foldl_append, hpre, List.foldl_cons, hstep]
    exact (foldl_splitStep_in_quote q later res (rest ++ [' ']) hlater).1
  · rw [hsplit, List.foldl_append, hpre, List.foldl_cons, hstep]
    exact (foldl_splitStep_in_quote q later res (rest ++ [' ']) hlater).2

/-- Witness for C10: tokenizing the fully quoted single word drops it and
leaves the loop in quote mode. -/
theorem claim10_witness :
    safeSplit cmdFullyQuoted = ["run".toList] ∧
    (List.foldl splitStep initState (splitSpace cmdFullyQuoted)).inquote = some sq :=
  claim10_fully_quoted_word_dropped cmdFullyQuoted ["run".toList] sq
    ('x' :: [sq]) [] ["run".toList] (by decide) (by decide) (by decide) (by decide)
    (by decide)

end NextJS
